import Mathlib

/-!
Verification of the bounded lock-free queues in `spsc_queue.cc` and
`mpsc_queue_experimental.cpp` (thealexcons/spsc-queue).

The C++ classes are shallowly embedded as Lean structures over `List α`
buffers with `Nat` cursors.  `size_t` arithmetic is modelled by `Nat`
(the cursors stay below the buffer length, far from any overflow, and the
unsigned comparison `capacity + 1 < 0` is the always-false proposition
`capacity + 1 < 0` on `Nat`).  Atomic loads/stores and memory orders are
erased: operations are modelled as sequential state transformers, and the
MPSC compare-and-exchange succeeds on its first attempt (no interference).
For the MPSC visibility-gap analysis the enqueue is additionally split
into its two atomic program steps (the tail CAS and the later slot write)
so that interleavings with the consumer can be examined.
-/

/-- The SPSC queue state from `spsc_queue.cc`: ring buffer of length
`capacity + 1`, cursors `head_` and `tail_`, and the producer/consumer
cached mirrors `head_cached_` and `tail_cached_`. -/
structure SpscQueue (α : Type) where
  buffer : List α
  head : Nat
  tail : Nat
  head_cached : Nat
  tail_cached : Nat
deriving DecidableEq

/-- The freshly constructed SPSC state: `buffer_(capacity + 1)` filled with
the element type's default value, all cursors and caches zero. -/
def SpscQueue.fresh (capacity : Nat) (d : α) : SpscQueue α :=
  ⟨List.replicate (capacity + 1) d, 0, 0, 0, 0⟩

/-- `SpscQueue::SpscQueue(size_t capacity)`: allocates `capacity + 1` slots,
then guards with `if (capacity + 1 < 0) throw std::invalid_argument(...)`.
On the unsigned `size_t` this comparison is the always-false `Nat`
proposition, kept exactly as written. -/
def SpscQueue.construct (capacity : Nat) (d : α) : Except String (SpscQueue α) :=
  if capacity + 1 < 0 then Except.error "capacity too big"
  else Except.ok (SpscQueue.fresh capacity d)

/-- `SpscQueue::enqueue`: relaxed load of `tail_`, compute
`next_t = (t + 1) % buffer_.size()`; compare against `head_cached_`,
refreshing the cache from `head_` (acquire) only on equality; if still
equal return false, otherwise store the item at `t` and publish
`next_t` as the new tail (release). -/
def SpscQueue.enqueue (q : SpscQueue α) (item : α) : Bool × SpscQueue α :=
  let t := q.tail
  let next_t := (t + 1) % q.buffer.length
  if next_t = q.head_cached then
    let hc := q.head
    if next_t = hc then
      (false, { q with head_cached := hc })
    else
      (true, { q with head_cached := hc, buffer := q.buffer.set t item, tail := next_t })
  else
    (true, { q with buffer := q.buffer.set t item, tail := next_t })

/-- `SpscQueue::dequeue`: relaxed load of `head_`; compare against
`tail_cached_`, refreshing the cache from `tail_` (acquire) only on
equality; if still equal return false leaving the out-parameter alone,
otherwise read the slot into the out-parameter and publish
`(h + 1) % buffer_.size()` as the new head (release). -/
def SpscQueue.dequeue (q : SpscQueue α) (item : α) : Bool × α × SpscQueue α :=
  let h := q.head
  if h = q.tail_cached then
    let tc := q.tail
    if h = tc then
      (false, item, { q with tail_cached := tc })
    else
      (true, q.buffer.getD h item,
        { q with tail_cached := tc, head := (h + 1) % q.buffer.length })
  else
    (true, q.buffer.getD h item, { q with head := (h + 1) % q.buffer.length })

/-- `SpscQueue::is_empty`: relaxed loads of both cursors, equality test. -/
def SpscQueue.is_empty (q : SpscQueue α) : Bool :=
  q.head == q.tail

/-- Sequence of producer calls: enqueue each element of `xs` in order,
collecting the returned booleans. -/
def SpscQueue.runEnqueues (q : SpscQueue α) (xs : List α) :
    List Bool × SpscQueue α :=
  match xs with
  | [] => ([], q)
  | x :: rest =>
    let r := q.enqueue x
    let rs := SpscQueue.runEnqueues r.2 rest
    (r.1 :: rs.1, rs.2)

/-- Sequence of consumer calls: `n` dequeues, each passing `d` as the
incoming out-parameter value, collecting `(returned bool, out value)`. -/
def SpscQueue.runDequeues (q : SpscQueue α) (n : Nat) (d : α) :
    List (Bool × α) × SpscQueue α :=
  match n with
  | 0 => ([], q)
  | n + 1 =>
    let r := q.dequeue d
    let rs := SpscQueue.runDequeues r.2.2 n d
    ((r.1, r.2.1) :: rs.1, rs.2)

/-- Modelled from the spec: the reference SPSC queue "that always reads the
real peer cursor directly" — same ring buffer and cursors but no cached
mirrors.  Used only to state that the cached mirrors are never a source of
truth. -/
structure SpscRefQueue (α : Type) where
  buffer : List α
  head : Nat
  tail : Nat
deriving DecidableEq

/-- Modelled from the spec: reference enqueue, checking fullness against the
real `head` cursor directly. -/
def SpscRefQueue.enqueue (q : SpscRefQueue α) (item : α) : Bool × SpscRefQueue α :=
  let t := q.tail
  let next_t := (t + 1) % q.buffer.length
  if next_t = q.head then
    (false, q)
  else
    (true, { q with buffer := q.buffer.set t item, tail := next_t })

/-- Modelled from the spec: reference dequeue, checking emptiness against the
real `tail` cursor directly. -/
def SpscRefQueue.dequeue (q : SpscRefQueue α) (item : α) : Bool × α × SpscRefQueue α :=
  let h := q.head
  if h = q.tail then
    (false, item, q)
  else
    (true, q.buffer.getD h item, { q with head := (h + 1) % q.buffer.length })

/-- Forgetting the cached mirrors of an `SpscQueue` state. -/
def SpscQueue.toRef (q : SpscQueue α) : SpscRefQueue α :=
  ⟨q.buffer, q.head, q.tail⟩

/-- The MPSC queue state from `mpsc_queue_experimental.cpp`: ring buffer of
length `capacity + 1`, cursors `head_` and `tail_`, plus the declared but
never-used `count_` field. -/
structure MpscQueue (α : Type) where
  buffer : List α
  head : Nat
  tail : Nat
  count : Nat
deriving DecidableEq

/-- The freshly constructed MPSC state (the constructor's page-touching read
loop has no observable effect on the state). -/
def MpscQueue.fresh (capacity : Nat) (d : α) : MpscQueue α :=
  ⟨List.replicate (capacity + 1) d, 0, 0, 0⟩

/-- `MpscQueue::MpscQueue(size_t capacity)`: allocates `capacity + 1` slots,
then guards with
`if (capacity + 1 < 0 && (size & (size - 1)) == 0) throw ...`.
The first conjunct is the always-false unsigned comparison, kept as
written. -/
def MpscQueue.construct (capacity : Nat) (d : α) : Except String (MpscQueue α) :=
  let size := capacity + 1
  if capacity + 1 < 0 ∧ size &&& (size - 1) = 0 then Except.error "capacity too big"
  else Except.ok (MpscQueue.fresh capacity d)

/-- `MpscQueue::enqueue`, sequential semantics: the CAS loop body loads
`tail_`, computes `next_t`, returns false if `next_t` equals the acquire
load of `head_`; with no interfering producer the compare-and-exchange
succeeds on the first attempt, after which the item is written into the
claimed slot `t`. -/
def MpscQueue.enqueue (q : MpscQueue α) (item : α) : Bool × MpscQueue α :=
  let t := q.tail
  let next_t := (t + 1) % q.buffer.length
  if next_t = q.head then
    (false, q)
  else
    (true, { q with tail := next_t, buffer := q.buffer.set t item })

/-- First atomic program step of `MpscQueue::enqueue`: the full check and the
winning tail compare-and-exchange, claiming slot `t` — the item has not
been written yet.  Returns (won, claimed index, state). -/
def MpscQueue.enqueueClaim (q : MpscQueue α) : Bool × Nat × MpscQueue α :=
  let t := q.tail
  let next_t := (t + 1) % q.buffer.length
  if next_t = q.head then
    (false, t, q)
  else
    (true, t, { q with tail := next_t })

/-- Second atomic program step of `MpscQueue::enqueue`: `buffer_[t] = item`,
performed only after winning the CAS. -/
def MpscQueue.writeSlot (q : MpscQueue α) (t : Nat) (item : α) : MpscQueue α :=
  { q with buffer := q.buffer.set t item }

/-- `MpscQueue::dequeue`: relaxed load of `head_`; return false if it equals
the acquire load of `tail_`; otherwise read the slot into the
out-parameter and publish `(h + 1) % buffer_.size()` as the new head. -/
def MpscQueue.dequeue (q : MpscQueue α) (item : α) : Bool × α × MpscQueue α :=
  let h := q.head
  if h = q.tail then
    (false, item, q)
  else
    (true, q.buffer.getD h item, { q with head := (h + 1) % q.buffer.length })

/-- `MpscQueue::is_empty`: relaxed loads of both cursors, equality test. -/
def MpscQueue.is_empty (q : MpscQueue α) : Bool :=
  q.head == q.tail

/-- MPSC producer call sequence, as for the SPSC queue. -/
def MpscQueue.runEnqueues (q : MpscQueue α) (xs : List α) :
    List Bool × MpscQueue α :=
  match xs with
  | [] => ([], q)
  | x :: rest =>
    let r := q.enqueue x
    let rs := MpscQueue.runEnqueues r.2 rest
    (r.1 :: rs.1, rs.2)

/-- MPSC consumer call sequence, as for the SPSC queue. -/
def MpscQueue.runDequeues (q : MpscQueue α) (n : Nat) (d : α) :
    List (Bool × α) × MpscQueue α :=
  match n with
  | 0 => ([], q)
  | n + 1 =>
    let r := q.dequeue d
    let rs := MpscQueue.runDequeues r.2.2 n d
    ((r.1, r.2.1) :: rs.1, rs.2)

/-! ## Claim theorems: construction, emptiness, wrap-around, rejection -/

/-- C2: evaluation of both constructors' invalid-capacity guards.  The C++
guard condition `capacity + 1 < 0` compares the unsigned `size_t` value
`capacity + 1` against 0 and is therefore identically false, so
construction succeeds for every capacity — including 0 — and the
`InvalidCapacity` check is unreachable, contradicting the claim's demand
for a reachable, real check. -/
theorem construct_guard_never_fires (C : Nat) :
    SpscQueue.construct C (0 : Nat) = Except.ok (SpscQueue.fresh C 0) ∧
    MpscQueue.construct C (0 : Nat) = Except.ok (MpscQueue.fresh C 0) := by
  constructor
  · rw [SpscQueue.construct, if_neg (Nat.not_lt_zero _)]
  · rw [MpscQueue.construct]
    exact if_neg (fun h => Nat.not_lt_zero _ h.1)

/-- C4: immediately after construction (of either queue, any capacity
`C ≥ 1`), `is_empty()` returns true and a dequeue attempt returns false,
leaving the out-parameter and the whole queue state unchanged. -/
theorem fresh_is_empty_dequeue_fails (C : Nat) (hC : 1 ≤ C) (d x : Nat) :
    (SpscQueue.fresh C d).is_empty = true ∧
    (SpscQueue.fresh C d).dequeue x = (false, x, SpscQueue.fresh C d) ∧
    (MpscQueue.fresh C d).is_empty = true ∧
    (MpscQueue.fresh C d).dequeue x = (false, x, MpscQueue.fresh C d) :=
  ⟨rfl, rfl, rfl, rfl⟩

/-- C4 witness: the theorem instantiated at capacity 1 with out-parameter 9. -/
theorem fresh_is_empty_dequeue_fails_witness :
    1 ≤ 1 ∧
    ((SpscQueue.fresh 1 0).is_empty = true ∧
     (SpscQueue.fresh 1 0).dequeue 9 = (false, 9, SpscQueue.fresh 1 0) ∧
     (MpscQueue.fresh 1 0).is_empty = true ∧
     (MpscQueue.fresh 1 0).dequeue 9 = (false, 9, MpscQueue.fresh 1 0)) :=
  ⟨by decide, fresh_is_empty_dequeue_fails 1 (by decide) 0 9⟩

/-- C5: wrap-around on capacity 4, for both queues: enqueue [1,2,3,4]
(all true), dequeue twice observing [1,2], enqueue [5,6] (all true,
wrapping past the end of the 5-slot buffer), then four dequeues observe
[3,4,5,6]. -/
theorem wraparound_capacity_four :
    ((SpscQueue.fresh 4 0).runEnqueues [1, 2, 3, 4]).1 = [true, true, true, true] ∧
    (((SpscQueue.fresh 4 0).runEnqueues [1, 2, 3, 4]).2.runDequeues 2 0).1 =
      [(true, 1), (true, 2)] ∧
    ((((SpscQueue.fresh 4 0).runEnqueues [1, 2, 3, 4]).2.runDequeues 2 0).2.runEnqueues
      [5, 6]).1 = [true, true] ∧
    (((((SpscQueue.fresh 4 0).runEnqueues [1, 2, 3, 4]).2.runDequeues 2 0).2.runEnqueues
      [5, 6]).2.runDequeues 4 0).1 = [(true, 3), (true, 4), (true, 5), (true, 6)] ∧
    ((MpscQueue.fresh 4 0).runEnqueues [1, 2, 3, 4]).1 = [true, true, true, true] ∧
    (((MpscQueue.fresh 4 0).runEnqueues [1, 2, 3, 4]).2.runDequeues 2 0).1 =
      [(true, 1), (true, 2)] ∧
    ((((MpscQueue.fresh 4 0).runEnqueues [1, 2, 3, 4]).2.runDequeues 2 0).2.runEnqueues
      [5, 6]).1 = [true, true] ∧
    (((((MpscQueue.fresh 4 0).runEnqueues [1, 2, 3, 4]).2.runDequeues 2 0).2.runEnqueues
      [5, 6]).2.runDequeues 4 0).1 = [(true, 3), (true, 4), (true, 5), (true, 6)] := by
  decide

/-- C8: rejection atomicity.  Whenever an enqueue returns false (full) or a
dequeue returns false (empty), on either queue, the cursors and every
buffer slot are exactly as before the call, and a failed dequeue also
leaves the out-parameter value unchanged.  (The operations are total Lean
functions of the state — no exception path exists.)  The SPSC cached
mirrors are refreshed in the rejection path, which is why the SPSC
conclusions name the cursors and the buffer rather than whole-state
equality. -/
theorem rejection_atomicity {α : Type} (q : SpscQueue α) (p : MpscQueue α) (x d : α) :
    ((q.enqueue x).1 = false →
      (q.enqueue x).2.head = q.head ∧ (q.enqueue x).2.tail = q.tail ∧
      (q.enqueue x).2.buffer = q.buffer) ∧
    ((q.dequeue d).1 = false →
      (q.dequeue d).2.1 = d ∧ (q.dequeue d).2.2.head = q.head ∧
      (q.dequeue d).2.2.tail = q.tail ∧ (q.dequeue d).2.2.buffer = q.buffer) ∧
    ((p.enqueue x).1 = false → (p.enqueue x).2 = p) ∧
    ((p.dequeue d).1 = false → (p.dequeue d).2.1 = d ∧ (p.dequeue d).2.2 = p) := by
  refine ⟨?_, ?_, ?_, ?_⟩
  · simp only [SpscQueue.enqueue]
    split_ifs <;> intro hf <;> simp_all
  · simp only [SpscQueue.dequeue]
    split_ifs <;> intro hf <;> simp_all
  · simp only [MpscQueue.enqueue]
    split_ifs <;> intro hf <;> simp_all
  · simp only [MpscQueue.dequeue]
    split_ifs <;> intro hf <;> simp_all

/-- C8 witness: on the capacity-0 queues both rejection paths are taken, and
the theorem yields the unchanged-state conclusions there. -/
theorem rejection_atomicity_witness :
    (((SpscQueue.fresh 0 (0 : Nat)).enqueue 7).2.head = (SpscQueue.fresh 0 0).head ∧
     ((SpscQueue.fresh 0 (0 : Nat)).enqueue 7).2.tail = (SpscQueue.fresh 0 0).tail ∧
     ((SpscQueue.fresh 0 (0 : Nat)).enqueue 7).2.buffer = (SpscQueue.fresh 0 0).buffer) ∧
    (((SpscQueue.fresh 0 (0 : Nat)).dequeue 9).2.1 = 9) ∧
    ((MpscQueue.fresh 0 (0 : Nat)).enqueue 7).2 = MpscQueue.fresh 0 0 ∧
    ((MpscQueue.fresh 0 (0 : Nat)).dequeue 9).2.2 = MpscQueue.fresh 0 0 :=
  ⟨(rejection_atomicity (SpscQueue.fresh 0 0) (MpscQueue.fresh 0 0) 7 9).1 (by decide),
   ((rejection_atomicity (SpscQueue.fresh 0 0) (MpscQueue.fresh 0 0) 7 9).2.1 (by decide)).1,
   (rejection_atomicity (SpscQueue.fresh 0 0) (MpscQueue.fresh 0 0) 7 9).2.2.1 (by decide),
   ((rejection_atomicity (SpscQueue.fresh 0 0) (MpscQueue.fresh 0 0) 7 9).2.2.2 (by decide)).2⟩

/-- C9: the MPSC enqueue writes the item only after winning the tail
compare-and-exchange, and this opens a visibility gap.  First conjunct:
`enqueue` is exactly the claim step (full check + winning CAS) followed —
only on success — by the slot write.  Remaining conjuncts: a concrete
interleaving on a fresh capacity-1 queue where a producer enqueueing 42
has executed only the claim step: the tail has advanced to 1 while the
buffer still holds the default values `[0, 0]`; the consumer's dequeue at
that point returns true and delivers the stale slot value 0 ≠ 42 — the
slot was treated as deliverable before the producer's write. -/
theorem mpsc_write_after_cas_visibility_gap :
    (∀ (q : MpscQueue Nat) (x : Nat),
      q.enqueue x =
        match q.enqueueClaim with
        | (false, _, q') => (false, q')
        | (true, t, q') => (true, q'.writeSlot t x)) ∧
    (MpscQueue.fresh 1 0).enqueueClaim =
      (true, 0, { MpscQueue.fresh 1 0 with tail := 1 }) ∧
    ({ MpscQueue.fresh 1 0 with tail := 1 } : MpscQueue Nat).buffer = [0, 0] ∧
    ({ MpscQueue.fresh 1 0 with tail := 1 } : MpscQueue Nat).dequeue 99 =
      (true, 0, { MpscQueue.fresh 1 0 with tail := 1, head := 1 }) ∧
    (0 : Nat) ≠ 42 := by
  refine ⟨?_, by decide, by decide, by decide, by decide⟩
  intro q x
  by_cases h : (q.tail + 1) % q.buffer.length = q.head <;>
    simp [MpscQueue.enqueue, MpscQueue.enqueueClaim, MpscQueue.writeSlot, h]

/-- C10: capacity 0 is accepted by both constructors (the guard never
fires), yielding a 1-slot buffer on which enqueue always returns false,
dequeue always returns false with the out-parameter untouched, the state
never changes, and `is_empty()` is true. -/
theorem capacity_zero_degenerate :
    SpscQueue.construct 0 (0 : Nat) = Except.ok (SpscQueue.fresh 0 0) ∧
    (SpscQueue.fresh 0 (0 : Nat)).buffer.length = 1 ∧
    (∀ x : Nat, (SpscQueue.fresh 0 0).enqueue x = (false, SpscQueue.fresh 0 0)) ∧
    (∀ d : Nat, (SpscQueue.fresh 0 0).dequeue d = (false, d, SpscQueue.fresh 0 0)) ∧
    (SpscQueue.fresh 0 (0 : Nat)).is_empty = true ∧
    MpscQueue.construct 0 (0 : Nat) = Except.ok (MpscQueue.fresh 0 0) ∧
    (MpscQueue.fresh 0 (0 : Nat)).buffer.length = 1 ∧
    (∀ x : Nat, (MpscQueue.fresh 0 0).enqueue x = (false, MpscQueue.fresh 0 0)) ∧
    (∀ d : Nat, (MpscQueue.fresh 0 0).dequeue d = (false, d, MpscQueue.fresh 0 0)) ∧
    (MpscQueue.fresh 0 (0 : Nat)).is_empty = true :=
  ⟨rfl, rfl, fun _ => rfl, fun _ => rfl, rfl, rfl, rfl, fun _ => rfl, fun _ => rfl, rfl⟩

/-! ## Branch lemmas for the SPSC operations -/

/-- Enqueue when the candidate tail differs from the cached head: the fast
path writes the slot and advances the tail without touching the cache. -/
theorem SpscQueue.enqueue_fast (q : SpscQueue α) (x : α)
    (h1 : (q.tail + 1) % q.buffer.length ≠ q.head_cached) :
    q.enqueue x = (true, { q with buffer := q.buffer.set q.tail x,
                                  tail := (q.tail + 1) % q.buffer.length }) := by
  simp only [SpscQueue.enqueue]
  rw [if_neg h1]

/-- Enqueue when the cache suspects fullness and the refreshed head confirms
it: rejection, with the cache refreshed to the real head. -/
theorem SpscQueue.enqueue_refresh_full (q : SpscQueue α) (x : α)
    (h1 : (q.tail + 1) % q.buffer.length = q.head_cached)
    (h2 : (q.tail + 1) % q.buffer.length = q.head) :
    q.enqueue x = (false, { q with head_cached := q.head }) := by
  simp only [SpscQueue.enqueue]
  rw [if_pos h1, if_pos h2]

/-- Enqueue when the cache suspects fullness but the refreshed head
disagrees: the slot is written, the tail advances, the cache is
refreshed. -/
theorem SpscQueue.enqueue_refresh_ok (q : SpscQueue α) (x : α)
    (h1 : (q.tail + 1) % q.buffer.length = q.head_cached)
    (h2 : (q.tail + 1) % q.buffer.length ≠ q.head) :
    q.enqueue x = (true, { q with head_cached := q.head,
                                  buffer := q.buffer.set q.tail x,
                                  tail := (q.tail + 1) % q.buffer.length }) := by
  simp only [SpscQueue.enqueue]
  rw [if_pos h1, if_neg h2]

/-- Dequeue when the head differs from the cached tail: the fast path reads
the slot and advances the head without touching the cache. -/
theorem SpscQueue.dequeue_fast (q : SpscQueue α) (d : α)
    (h1 : q.head ≠ q.tail_cached) :
    q.dequeue d = (true, q.buffer.getD q.head d,
      { q with head := (q.head + 1) % q.buffer.length }) := by
  simp only [SpscQueue.dequeue]
  rw [if_neg h1]

/-- Dequeue when the cache suspects emptiness and the refreshed tail confirms
it: rejection, with the cache refreshed to the real tail. -/
theorem SpscQueue.dequeue_refresh_empty (q : SpscQueue α) (d : α)
    (h1 : q.head = q.tail_cached) (h2 : q.head = q.tail) :
    q.dequeue d = (false, d, { q with tail_cached := q.tail }) := by
  simp only [SpscQueue.dequeue]
  rw [if_pos h1, if_pos h2]

/-- Dequeue when the cache suspects emptiness but the refreshed tail
disagrees: the slot is read, the head advances, the cache is refreshed. -/
theorem SpscQueue.dequeue_refresh_ok (q : SpscQueue α) (d : α)
    (h1 : q.head = q.tail_cached) (h2 : q.head ≠ q.tail) :
    q.dequeue d = (true, q.buffer.getD q.head d,
      { q with tail_cached := q.tail, head := (q.head + 1) % q.buffer.length }) := by
  simp only [SpscQueue.dequeue]
  rw [if_pos h1, if_neg h2]

/-! ## List helpers -/

/-- Setting the first slot after a prefix of a buffer that continues with
replicated padding extends the prefix by that element. -/
theorem set_append_replicate (ys : List α) (r : Nat) (x d : α) :
    (ys ++ List.replicate (r + 1) d).set ys.length x
      = (ys ++ [x]) ++ List.replicate r d := by
  induction ys with
  | nil => simp [List.replicate_succ]
  | cons y ys ih => simp [ih]

/-- Reading positions `0, …, length-1` of a list via `getD` recovers it. -/
theorem map_range_getD (xs : List α) (d : α) :
    (List.range xs.length).map (fun j => xs.getD j d) = xs := by
  induction xs with
  | nil => simp
  | cons x t ih =>
    simp only [List.length_cons, List.range_succ_eq_map, List.map_cons, List.map_map]
    exact congrArg (x :: ·) ih

/-! ## Characterization of enqueue bursts and drains on a fresh SPSC queue -/

/-- Enqueueing `xs` onto an SPSC state whose buffer holds the already-stored
prefix `ys` followed by untouched padding (head and caches still at 0,
tail at `ys.length`) succeeds step by step while room remains, extending
the stored prefix in order. -/
theorem SpscQueue.runEnqueues_prefix (C : Nat) (d : α) (xs : List α) :
    ∀ ys : List α, ys.length + xs.length ≤ C →
    SpscQueue.runEnqueues
        ⟨ys ++ List.replicate (C + 1 - ys.length) d, 0, ys.length, 0, 0⟩ xs
      = (List.replicate xs.length true,
         ⟨(ys ++ xs) ++ List.replicate (C + 1 - (ys.length + xs.length)) d, 0,
          ys.length + xs.length, 0, 0⟩) := by
  induction xs with
  | nil => intro ys h; simp [SpscQueue.runEnqueues]
  | cons x rest ih =>
    intro ys h
    have hx : ys.length + (rest.length + 1) ≤ C := by simpa using h
    have hlen : (ys ++ List.replicate (C + 1 - ys.length) d).length = C + 1 := by
      simp; omega
    have hmod : (ys.length + 1) % (C + 1) = ys.length + 1 :=
      Nat.mod_eq_of_lt (by omega)
    have hstep := SpscQueue.enqueue_fast
      (α := α) ⟨ys ++ List.replicate (C + 1 - ys.length) d, 0, ys.length, 0, 0⟩ x
      (by simp only [hlen, hmod]; omega)
    simp only [hlen, hmod] at hstep
    have hset : (ys ++ List.replicate (C + 1 - ys.length) d).set ys.length x
        = (ys ++ [x]) ++ List.replicate (C + 1 - (ys.length + 1)) d := by
      have hr : C + 1 - ys.length = (C + 1 - (ys.length + 1)) + 1 := by omega
      rw [hr, set_append_replicate]
    have ihx := ih (ys ++ [x]) (by simp; omega)
    simp only [List.length_append, List.length_singleton] at ihx
    have harith : ys.length + 1 + rest.length = ys.length + (rest.length + 1) := by
      omega
    have hc1 : C + 1 - (ys.length + 1) = C - ys.length := by omega
    rw [harith] at ihx
    simp only [List.append_assoc, List.singleton_append, hc1] at ihx hset
    simp [SpscQueue.runEnqueues, hstep, hset, ihx, List.replicate_succ,
      List.append_assoc]

/-- Draining with the cached tail already refreshed to the real tail `N`:
each of `k` dequeues (starting at head `i`, with `i + k ≤ N < length`)
succeeds, reading consecutive buffer slots. -/
theorem SpscQueue.runDequeues_refreshed (N : Nat) (d : α) (b : List α)
    (hNb : N < b.length) (k : Nat) :
    ∀ (i hcv : Nat), i + k ≤ N →
    SpscQueue.runDequeues ⟨b, i, N, hcv, N⟩ k d
      = ((List.range k).map (fun j => (true, b.getD (i + j) d)),
         ⟨b, i + k, N, hcv, N⟩) := by
  induction k with
  | zero => intro i hcv h; simp [SpscQueue.runDequeues]
  | succ k ih =>
    intro i hcv h
    have hiN : i < N := by omega
    have hstep := SpscQueue.dequeue_fast (α := α) ⟨b, i, N, hcv, N⟩ d
      (by simpa using Nat.ne_of_lt hiN)
    have hmod : (i + 1) % b.length = i + 1 := Nat.mod_eq_of_lt (by omega)
    simp only [hmod] at hstep
    have ihx := ih (i + 1) hcv (by omega)
    simp [SpscQueue.runDequeues, hstep, ihx, List.range_succ_eq_map,
      List.map_map, Function.comp, Nat.add_assoc, Nat.add_comm 1]

/-- Full drain from the state reached after a burst of `N ≥ 1` enqueues on a
fresh queue (head 0, cached tail still 0): the first dequeue refreshes the
cached tail, after which the remaining `N - 1` proceed on the fast path;
the observed values are the first `N` buffer slots in order. -/
theorem SpscQueue.runDequeues_from_burst (N : Nat) (hN : 1 ≤ N) (d : α)
    (b : List α) (hNb : N < b.length) (hcv : Nat) :
    SpscQueue.runDequeues ⟨b, 0, N, hcv, 0⟩ N d
      = ((List.range N).map (fun j => (true, b.getD j d)), ⟨b, N, N, hcv, N⟩) := by
  obtain ⟨N', rfl⟩ : ∃ N', N = N' + 1 := ⟨N - 1, by omega⟩
  have hstep := SpscQueue.dequeue_refresh_ok (α := α) ⟨b, 0, N' + 1, hcv, 0⟩ d rfl
    (by simp)
  have hmod : (0 + 1) % b.length = 1 := Nat.mod_eq_of_lt (by omega)
  simp only [hmod] at hstep
  have hrest := SpscQueue.runDequeues_refreshed (N' + 1) d b hNb N' 1 hcv (by omega)
  simp [SpscQueue.runDequeues, hstep, hrest, List.range_succ_eq_map,
    List.map_map, Function.comp, Nat.add_comm 1]

/-- Reading the first `xs.length` slots of `xs ++ padding` in order recovers
`xs`, componentwise under any function. -/
theorem map_range_getD_append {β : Type} (xs r : List α) (d : α) (f : α → β) :
    (List.range xs.length).map (fun j => f ((xs ++ r).getD j d)) = xs.map f := by
  have h1 : ∀ j ∈ List.range xs.length,
      f ((xs ++ r).getD j d) = f (xs.getD j d) := by
    intro j hj
    rw [List.getD_append _ _ _ _ (List.mem_range.mp hj)]
  rw [List.map_congr_left h1]
  calc (List.range xs.length).map (fun j => f (xs.getD j d))
      = ((List.range xs.length).map (fun j => xs.getD j d)).map f := by
        rw [List.map_map]; rfl
    _ = xs.map f := by rw [map_range_getD]

/-- C1: SPSC FIFO.  For every capacity `C ≥ 1` and sequence `xs` of at most
`C` items, enqueueing them all on a fresh queue returns true every time,
and `xs.length` subsequent dequeues return true and deliver exactly `xs`
in order. -/
theorem spsc_fifo (C : Nat) (hC : 1 ≤ C) (xs : List Nat) (hlen : xs.length ≤ C) :
    ((SpscQueue.fresh C 0).runEnqueues xs).1 = List.replicate xs.length true ∧
    (((SpscQueue.fresh C 0).runEnqueues xs).2.runDequeues xs.length 0).1
      = xs.map (fun x => (true, x)) := by
  have hburst := SpscQueue.runEnqueues_prefix C (0 : Nat) xs [] (by simpa using hlen)
  simp only [List.length_nil, List.nil_append, Nat.zero_add, Nat.sub_zero] at hburst
  simp only [SpscQueue.fresh]
  refine ⟨by rw [hburst], ?_⟩
  rcases Nat.eq_zero_or_pos xs.length with h0 | hpos
  · obtain rfl := List.length_eq_zero.mp h0
    simp [SpscQueue.runDequeues, hburst]
  · have hdrain := SpscQueue.runDequeues_from_burst xs.length hpos (0 : Nat)
      (xs ++ List.replicate (C + 1 - xs.length) 0) (by simp; omega) 0
    rw [hburst]
    simp only [hdrain]
    exact map_range_getD_append xs _ 0 (fun x => (true, x))

/-- C1 witness: capacity 3, items [5, 6]. -/
theorem spsc_fifo_witness :
    1 ≤ 3 ∧ ([5, 6] : List Nat).length ≤ 3 ∧
    (((SpscQueue.fresh 3 0).runEnqueues [5, 6]).1 = List.replicate 2 true ∧
     (((SpscQueue.fresh 3 0).runEnqueues [5, 6]).2.runDequeues 2 0).1
       = [(true, 5), (true, 6)]) :=
  ⟨by decide, by decide, spsc_fifo 3 (by decide) [5, 6] (by decide)⟩

/-- C3: full-queue rejection.  For every capacity `C ≥ 1`, enqueueing `C`
items on a fresh queue succeeds every time; the `(C+1)`-th enqueue returns
false with the state (cursors, caches and buffer) exactly unchanged; and a
subsequent drain of `C` dequeues returns true every time, delivering the
original `C` items in order. -/
theorem spsc_full_rejection (C : Nat) (hC : 1 ≤ C) (xs : List Nat)
    (hlen : xs.length = C) (y : Nat) :
    ((SpscQueue.fresh C 0).runEnqueues xs).1 = List.replicate C true ∧
    (((SpscQueue.fresh C 0).runEnqueues xs).2.enqueue y).1 = false ∧
    (((SpscQueue.fresh C 0).runEnqueues xs).2.enqueue y).2
      = ((SpscQueue.fresh C 0).runEnqueues xs).2 ∧
    ((((SpscQueue.fresh C 0).runEnqueues xs).2.enqueue y).2.runDequeues C 0).1
      = xs.map (fun x => (true, x)) := by
  have hburst := SpscQueue.runEnqueues_prefix C (0 : Nat) xs []
    (by simp [hlen])
  simp only [List.length_nil, List.nil_append, Nat.zero_add, Nat.sub_zero, hlen]
    at hburst
  simp only [SpscQueue.fresh]
  have hblen : (xs ++ List.replicate (C + 1 - C) (0 : Nat)).length = C + 1 := by
    simp [hlen]
  have hfail := SpscQueue.enqueue_refresh_full
    (α := Nat) ⟨xs ++ List.replicate (C + 1 - C) 0, 0, C, 0, 0⟩ y
    (by simp only [hblen]; exact Nat.mod_self (C + 1))
    (by simp only [hblen]; exact Nat.mod_self (C + 1))
  have hdrain := SpscQueue.runDequeues_from_burst C hC (0 : Nat)
    (xs ++ List.replicate (C + 1 - C) 0) (by omega) 0
  refine ⟨by rw [hburst], by rw [hburst, hfail], by rw [hburst, hfail], ?_⟩
  rw [hburst, hfail]
  simp only [hdrain]
  have := map_range_getD_append xs (List.replicate (C + 1 - C) (0 : Nat)) 0
    (fun x => (true, x))
  rw [hlen] at this
  exact this

/-- C3 witness: capacity 2, items [7, 8], rejected item 9. -/
theorem spsc_full_rejection_witness :
    1 ≤ 2 ∧ ([7, 8] : List Nat).length = 2 ∧
    (((SpscQueue.fresh 2 0).runEnqueues [7, 8]).1 = List.replicate 2 true ∧
     (((SpscQueue.fresh 2 0).runEnqueues [7, 8]).2.enqueue 9).1 = false ∧
     (((SpscQueue.fresh 2 0).runEnqueues [7, 8]).2.enqueue 9).2
       = ((SpscQueue.fresh 2 0).runEnqueues [7, 8]).2 ∧
     ((((SpscQueue.fresh 2 0).runEnqueues [7, 8]).2.enqueue 9).2.runDequeues 2 0).1
       = [(true, 7), (true, 8)]) :=
  ⟨by decide, by decide, spsc_full_rejection 2 (by decide) [7, 8] (by decide) 9⟩

/-! ## The cache-lag invariant and refinement to the uncached reference -/

/-- Circular distance in a ring of length `L`: the number of steps forward
from cursor `b` to cursor `a` (for cursors below `L`). -/
def wrapDist (a b L : Nat) : Nat :=
  if b ≤ a then a - b else a + L - b

/-- Occupancy of the queue: circular distance from `head_` forward to
`tail_`. -/
def SpscQueue.used (q : SpscQueue α) : Nat :=
  wrapDist q.tail q.head q.buffer.length

/-- Occupancy as seen through the producer's cached head. -/
def SpscQueue.usedCachedHead (q : SpscQueue α) : Nat :=
  wrapDist q.tail q.head_cached q.buffer.length

/-- Occupancy as seen through the consumer's cached tail. -/
def SpscQueue.usedCachedTail (q : SpscQueue α) : Nat :=
  wrapDist q.tail_cached q.head q.buffer.length

/-- The cache-lag invariant: each cached mirror is an in-range lagging copy
of the peer cursor, so the producer's cached view never under-estimates
occupancy and the consumer's cached view never over-estimates it.  It
holds for the fresh queue and is preserved by both operations; every state
reachable from a fresh queue satisfies it. -/
def SpscQueue.CacheInv (q : SpscQueue α) : Prop :=
  q.head_cached < q.buffer.length ∧ q.tail_cached < q.buffer.length ∧
  q.used ≤ q.usedCachedHead ∧ q.usedCachedTail ≤ q.used

/-- `(t + 1) % L` written without the modulo, for `t < L`. -/
theorem succ_mod (t L : Nat) (h : t < L) :
    (t + 1) % L = if t + 1 = L then 0 else t + 1 := by
  split_ifs with he
  · rw [he, Nat.mod_self]
  · exact Nat.mod_eq_of_lt (by omega)

/-- The circular distance between in-range cursors is below `L`. -/
theorem wrapDist_lt (a b L : Nat) (ha : a < L) (hb : b < L) :
    wrapDist a b L < L := by
  unfold wrapDist; split_ifs <;> omega

/-- The ring is full from cursor `h'` exactly when the advanced tail hits
`h'`, i.e. when the circular distance is `L - 1`. -/
theorem wrapDist_full_iff (t h' L : Nat) (ht : t < L) (hh : h' < L) :
    (t + 1) % L = h' ↔ wrapDist t h' L = L - 1 := by
  rw [succ_mod t L ht]; unfold wrapDist; split_ifs <;> omega

/-- The ring is empty from cursor `h'` exactly when the circular distance
from `h'` to `t'` is zero. -/
theorem wrapDist_zero_iff (h' t' L : Nat) (hh : h' < L) (ht : t' < L) :
    h' = t' ↔ wrapDist t' h' L = 0 := by
  unfold wrapDist; split_ifs <;> omega

/-- Advancing the first cursor (when it does not hit `b`) grows the circular
distance by one. -/
theorem wrapDist_succ_left (t b L : Nat) (ht : t < L) (hb : b < L)
    (hne : (t + 1) % L ≠ b) :
    wrapDist ((t + 1) % L) b L = wrapDist t b L + 1 := by
  rw [succ_mod t L ht] at hne ⊢
  unfold wrapDist; split_ifs at * <;> omega

/-- Advancing the second cursor (when it is not already at `a`) shrinks the
circular distance by one. -/
theorem wrapDist_succ_right (a h L : Nat) (ha : a < L) (hh : h < L)
    (hne : h ≠ a) :
    wrapDist a ((h + 1) % L) L = wrapDist a h L - 1 := by
  rw [succ_mod h L hh]
  unfold wrapDist; split_ifs <;> omega

/-- Refinement of the cached enqueue to the reference enqueue: under the
cursor bounds and the cache-lag invariant, both return the same boolean
and produce the same buffer and cursors, and the invariant is
preserved. -/
theorem SpscQueue.enqueue_refines (q : SpscQueue α) (x : α)
    (hh : q.head < q.buffer.length) (ht : q.tail < q.buffer.length)
    (hc : q.CacheInv) :
    (q.enqueue x).1 = (q.toRef.enqueue x).1 ∧
    (q.enqueue x).2.toRef = (q.toRef.enqueue x).2 ∧
    (q.enqueue x).2.CacheInv := by
  obtain ⟨hhc, htc, hch, hct⟩ := hc
  simp only [SpscQueue.used, SpscQueue.usedCachedHead, SpscQueue.usedCachedTail]
    at hch hct
  by_cases h1 : (q.tail + 1) % q.buffer.length = q.head_cached
  · by_cases h2 : (q.tail + 1) % q.buffer.length = q.head
    · rw [SpscQueue.enqueue_refresh_full q x h1 h2]
      refine ⟨?_, ?_, ?_, ?_, ?_, ?_⟩
      · simp [SpscRefQueue.enqueue, SpscQueue.toRef, h2]
      · simp [SpscRefQueue.enqueue, SpscQueue.toRef, h2]
      · exact hh
      · exact htc
      · simp only [SpscQueue.used, SpscQueue.usedCachedHead]; exact Nat.le_refl _
      · exact hct
    · rw [SpscQueue.enqueue_refresh_ok q x h1 h2]
      refine ⟨?_, ?_, ?_, ?_, ?_, ?_⟩
      · simp [SpscRefQueue.enqueue, SpscQueue.toRef, h2]
      · simp [SpscRefQueue.enqueue, SpscQueue.toRef, h2]
      · simpa using hh
      · simpa using htc
      · simp only [SpscQueue.used, SpscQueue.usedCachedHead, List.length_set]
        exact Nat.le_refl _
      · simp only [SpscQueue.used, SpscQueue.usedCachedTail, List.length_set]
        rw [wrapDist_succ_left q.tail q.head q.buffer.length ht hh h2]
        exact Nat.le_succ_of_le hct
  · have h2 : (q.tail + 1) % q.buffer.length ≠ q.head := by
      intro h2
      have hfull : wrapDist q.tail q.head q.buffer.length = q.buffer.length - 1 :=
        (wrapDist_full_iff q.tail q.head q.buffer.length ht hh).mp h2
      have hltc : wrapDist q.tail q.head_cached q.buffer.length < q.buffer.length :=
        wrapDist_lt q.tail q.head_cached q.buffer.length ht hhc
      have hfullc : wrapDist q.tail q.head_cached q.buffer.length
          = q.buffer.length - 1 := by omega
      exact h1 ((wrapDist_full_iff q.tail q.head_cached q.buffer.length ht hhc).mpr
        hfullc)
    rw [SpscQueue.enqueue_fast q x h1]
    refine ⟨?_, ?_, ?_, ?_, ?_, ?_⟩
    · simp [SpscRefQueue.enqueue, SpscQueue.toRef, h2]
    · simp [SpscRefQueue.enqueue, SpscQueue.toRef, h2]
    · simpa using hhc
    · simpa using htc
    · simp only [SpscQueue.used, SpscQueue.usedCachedHead, List.length_set]
      rw [wrapDist_succ_left q.tail q.head q.buffer.length ht hh h2,
        wrapDist_succ_left q.tail q.head_cached q.buffer.length ht hhc h1]
      omega
    · simp only [SpscQueue.used, SpscQueue.usedCachedTail, List.length_set]
      rw [wrapDist_succ_left q.tail q.head q.buffer.length ht hh h2]
      exact Nat.le_succ_of_le hct

/-- Refinement of the cached dequeue to the reference dequeue, with
preservation of the cache-lag invariant. -/
theorem SpscQueue.dequeue_refines (q : SpscQueue α) (d : α)
    (hh : q.head < q.buffer.length) (ht : q.tail < q.buffer.length)
    (hc : q.CacheInv) :
    (q.dequeue d).1 = (q.toRef.dequeue d).1 ∧
    (q.dequeue d).2.1 = (q.toRef.dequeue d).2.1 ∧
    (q.dequeue d).2.2.toRef = (q.toRef.dequeue d).2.2 ∧
    (q.dequeue d).2.2.CacheInv := by
  obtain ⟨hhc, htc, hch, hct⟩ := hc
  simp only [SpscQueue.used, SpscQueue.usedCachedHead, SpscQueue.usedCachedTail]
    at hch hct
  by_cases h1 : q.head = q.tail_cached
  · by_cases h2 : q.head = q.tail
    · rw [SpscQueue.dequeue_refresh_empty q d h1 h2]
      refine ⟨?_, ?_, ?_, ?_, ?_, ?_, ?_⟩
      · simp [SpscRefQueue.dequeue, SpscQueue.toRef, h2]
      · simp [SpscRefQueue.dequeue, SpscQueue.toRef, h2]
      · simp [SpscRefQueue.dequeue, SpscQueue.toRef, h2]
      · exact hhc
      · exact ht
      · exact hch
      · simp only [SpscQueue.used, SpscQueue.usedCachedTail]; exact Nat.le_refl _
    · rw [SpscQueue.dequeue_refresh_ok q d h1 h2]
      refine ⟨?_, ?_, ?_, ?_, ?_, ?_, ?_⟩
      · simp [SpscRefQueue.dequeue, SpscQueue.toRef, h2]
      · simp [SpscRefQueue.dequeue, SpscQueue.toRef, h2]
      · simp [SpscRefQueue.dequeue, SpscQueue.toRef, h2]
      · exact hhc
      · exact ht
      · simp only [SpscQueue.used, SpscQueue.usedCachedHead]
        rw [wrapDist_succ_right q.tail q.head q.buffer.length ht hh h2]
        omega
      · simp only [SpscQueue.used, SpscQueue.usedCachedTail]
        rw [wrapDist_succ_right q.tail q.head q.buffer.length ht hh h2]
  · have h2 : q.head ≠ q.tail := by
      intro h2
      have hz : wrapDist q.tail q.head q.buffer.length = 0 :=
        (wrapDist_zero_iff q.head q.tail q.buffer.length hh ht).mp h2
      have hzc : wrapDist q.tail_cached q.head q.buffer.length = 0 := by omega
      exact h1 ((wrapDist_zero_iff q.head q.tail_cached q.buffer.length hh htc).mpr
        hzc)
    rw [SpscQueue.dequeue_fast q d h1]
    refine ⟨?_, ?_, ?_, ?_, ?_, ?_, ?_⟩
    · simp [SpscRefQueue.dequeue, SpscQueue.toRef, h2]
    · simp [SpscRefQueue.dequeue, SpscQueue.toRef, h2]
    · simp [SpscRefQueue.dequeue, SpscQueue.toRef, h2]
    · exact hhc
    · exact htc
    · simp only [SpscQueue.used, SpscQueue.usedCachedHead]
      rw [wrapDist_succ_right q.tail q.head q.buffer.length ht hh h2]
      omega
    · simp only [SpscQueue.used, SpscQueue.usedCachedTail]
      rw [wrapDist_succ_right q.tail q.head q.buffer.length ht hh h2,
        wrapDist_succ_right q.tail_cached q.head q.buffer.length htc hh h1]
      omega

/-- C7 counterexample: with an arbitrarily chosen cached-head value the claim
fails.  On the full capacity-1 queue (head 0, tail 1) whose cached head
holds the stale-looking value 1 — a state no execution reaches — the
cached enqueue skips the refresh, returns true and overwrites, while the
reference version returns false. -/
theorem spsc_cache_mirror_counterexample :
    ((⟨[0, 0], 0, 1, 1, 0⟩ : SpscQueue Nat).enqueue 7).1 = true ∧
    ((⟨[0, 0], 0, 1, 1, 0⟩ : SpscQueue Nat).toRef.enqueue 7).1 = false := by
  decide

/-- C7 (amended): on every state satisfying the cursor bounds and the
cache-lag invariant — the fresh queue satisfies both, and the operations
preserve them, so this covers every reachable state — enqueue and dequeue
return the same boolean and out value and produce the same buffer and
cursors as the reference version that always reads the real peer cursor
directly. -/
theorem spsc_cache_refinement (C : Nat) (q : SpscQueue Nat) (x d : Nat)
    (hh : q.head < q.buffer.length) (ht : q.tail < q.buffer.length)
    (hc : q.CacheInv) :
    (SpscQueue.fresh C (0 : Nat)).CacheInv ∧
    ((q.enqueue x).1 = (q.toRef.enqueue x).1 ∧
     (q.enqueue x).2.toRef = (q.toRef.enqueue x).2 ∧
     (q.enqueue x).2.CacheInv) ∧
    ((q.dequeue d).1 = (q.toRef.dequeue d).1 ∧
     (q.dequeue d).2.1 = (q.toRef.dequeue d).2.1 ∧
     (q.dequeue d).2.2.toRef = (q.toRef.dequeue d).2.2 ∧
     (q.dequeue d).2.2.CacheInv) :=
  ⟨⟨by simp [SpscQueue.fresh], by simp [SpscQueue.fresh], Nat.le_refl _,
     Nat.le_refl _⟩,
   q.enqueue_refines x hh ht hc, q.dequeue_refines d hh ht hc⟩

/-- C7 witness: the refinement applied on a concrete mid-stream state of
capacity 2 (two items stored, head 0, tail 2, caches at 0). -/
theorem spsc_cache_refinement_witness :
    ((⟨[3, 4, 5], 0, 2, 0, 0⟩ : SpscQueue Nat).enqueue 7).1
      = ((⟨[3, 4, 5], 0, 2, 0, 0⟩ : SpscQueue Nat).toRef.enqueue 7).1 ∧
    ((⟨[3, 4, 5], 0, 2, 0, 0⟩ : SpscQueue Nat).dequeue 9).1
      = ((⟨[3, 4, 5], 0, 2, 0, 0⟩ : SpscQueue Nat).toRef.dequeue 9).1 :=
  ⟨(spsc_cache_refinement 2 ⟨[3, 4, 5], 0, 2, 0, 0⟩ 7 9 (by decide) (by decide)
      ⟨by decide, by decide, by decide, by decide⟩).2.1.1,
   (spsc_cache_refinement 2 ⟨[3, 4, 5], 0, 2, 0, 0⟩ 7 9 (by decide) (by decide)
      ⟨by decide, by decide, by decide, by decide⟩).2.2.1⟩

/-! ## State invariants (claim C6) -/

/-- The SPSC state invariant for capacity `C`: fixed buffer length `C + 1`
and both cursors inside the buffer. -/
def SpscQueue.Inv (C : Nat) (q : SpscQueue α) : Prop :=
  q.buffer.length = C + 1 ∧ q.head < C + 1 ∧ q.tail < C + 1

/-- The MPSC state invariant for capacity `C`. -/
def MpscQueue.Inv (C : Nat) (q : MpscQueue α) : Prop :=
  q.buffer.length = C + 1 ∧ q.head < C + 1 ∧ q.tail < C + 1

/-- SPSC enqueue preserves the state invariant. -/
theorem SpscQueue.enqueue_preserves_Inv (C : Nat) (q : SpscQueue α) (x : α)
    (h : SpscQueue.Inv C q) : SpscQueue.Inv C (q.enqueue x).2 := by
  obtain ⟨hl, hh, ht⟩ := h
  have hmod : (q.tail + 1) % q.buffer.length < C + 1 := by
    rw [hl]; exact Nat.mod_lt _ (Nat.succ_pos C)
  simp only [SpscQueue.enqueue]
  split_ifs
  · exact ⟨hl, hh, ht⟩
  · exact ⟨by simpa using hl, hh, hmod⟩
  · exact ⟨by simpa using hl, hh, hmod⟩

/-- SPSC dequeue preserves the state invariant. -/
theorem SpscQueue.dequeue_preserves_Inv (C : Nat) (q : SpscQueue α) (d : α)
    (h : SpscQueue.Inv C q) : SpscQueue.Inv C (q.dequeue d).2.2 := by
  obtain ⟨hl, hh, ht⟩ := h
  have hmod : (q.head + 1) % q.buffer.length < C + 1 := by
    rw [hl]; exact Nat.mod_lt _ (Nat.succ_pos C)
  simp only [SpscQueue.dequeue]
  split_ifs
  · exact ⟨hl, hh, ht⟩
  · exact ⟨hl, hmod, ht⟩
  · exact ⟨hl, hmod, ht⟩

/-- MPSC enqueue preserves the state invariant. -/
theorem MpscQueue.enqueue_keeps_Inv (C : Nat) (q : MpscQueue α) (x : α)
    (h : MpscQueue.Inv C q) : MpscQueue.Inv C (q.enqueue x).2 := by
  obtain ⟨hl, hh, ht⟩ := h
  have hmod : (q.tail + 1) % q.buffer.length < C + 1 := by
    rw [hl]; exact Nat.mod_lt _ (Nat.succ_pos C)
  simp only [MpscQueue.enqueue]
  split_ifs
  · exact ⟨hl, hh, ht⟩
  · exact ⟨by simpa using hl, hh, hmod⟩

/-- MPSC dequeue preserves the state invariant. -/
theorem MpscQueue.dequeue_keeps_Inv (C : Nat) (q : MpscQueue α) (d : α)
    (h : MpscQueue.Inv C q) : MpscQueue.Inv C (q.dequeue d).2.2 := by
  obtain ⟨hl, hh, ht⟩ := h
  have hmod : (q.head + 1) % q.buffer.length < C + 1 := by
    rw [hl]; exact Nat.mod_lt _ (Nat.succ_pos C)
  simp only [MpscQueue.dequeue]
  split_ifs
  · exact ⟨hl, hh, ht⟩
  · exact ⟨hl, hmod, ht⟩

/-- The reference enqueue rejects exactly on the full condition. -/
theorem SpscRefQueue.enqueue_rejects_iff (q : SpscRefQueue α) (x : α) :
    (q.enqueue x).1 = false ↔ (q.tail + 1) % q.buffer.length = q.head := by
  simp only [SpscRefQueue.enqueue]
  split_ifs with h <;> simp [h]

/-- The reference dequeue rejects exactly on the empty condition. -/
theorem SpscRefQueue.dequeue_rejects_iff (q : SpscRefQueue α) (d : α) :
    (q.dequeue d).1 = false ↔ q.head = q.tail := by
  simp only [SpscRefQueue.dequeue]
  split_ifs with h <;> simp [h]

/-- The MPSC enqueue rejects exactly on the full condition. -/
theorem MpscQueue.enqueue_false_iff (q : MpscQueue α) (x : α) :
    (q.enqueue x).1 = false ↔ (q.tail + 1) % q.buffer.length = q.head := by
  simp only [MpscQueue.enqueue]
  split_ifs with h <;> simp [h]

/-- The MPSC dequeue rejects exactly on the empty condition. -/
theorem MpscQueue.dequeue_false_iff (q : MpscQueue α) (d : α) :
    (q.dequeue d).1 = false ↔ q.head = q.tail := by
  simp only [MpscQueue.dequeue]
  split_ifs with h <;> simp [h]

/-- C6: state invariants.  The fresh queues of capacity `C` satisfy the
invariant (buffer length `C + 1`, cursors in range); every operation on
either queue preserves it (so the buffer length never changes), and on the
SPSC queue the cache-lag invariant is preserved as well; the queues are
empty (`is_empty`, and dequeue rejection) exactly when `head = tail`, and
full (enqueue rejection) exactly when `(tail + 1) % length = head`. -/
theorem queue_state_invariants (C : Nat) (q : SpscQueue Nat) (p : MpscQueue Nat)
    (x d : Nat) (hq : SpscQueue.Inv C q) (hqc : q.CacheInv)
    (hp : MpscQueue.Inv C p) :
    SpscQueue.Inv C (SpscQueue.fresh C (0 : Nat)) ∧
    MpscQueue.Inv C (MpscQueue.fresh C (0 : Nat)) ∧
    SpscQueue.Inv C (q.enqueue x).2 ∧ (q.enqueue x).2.CacheInv ∧
    SpscQueue.Inv C (q.dequeue d).2.2 ∧ (q.dequeue d).2.2.CacheInv ∧
    MpscQueue.Inv C (p.enqueue x).2 ∧
    MpscQueue.Inv C (p.dequeue d).2.2 ∧
    (q.is_empty = true ↔ q.head = q.tail) ∧
    (p.is_empty = true ↔ p.head = p.tail) ∧
    ((q.enqueue x).1 = false ↔ (q.tail + 1) % (C + 1) = q.head) ∧
    ((q.dequeue d).1 = false ↔ q.head = q.tail) ∧
    ((p.enqueue x).1 = false ↔ (p.tail + 1) % (C + 1) = p.head) ∧
    ((p.dequeue d).1 = false ↔ p.head = p.tail) := by
  obtain ⟨hl, hh, ht⟩ := hq
  obtain ⟨hpl, hph, hpt⟩ := hp
  have hh' : q.head < q.buffer.length := by omega
  have ht' : q.tail < q.buffer.length := by omega
  refine ⟨⟨by simp [SpscQueue.fresh], by simp [SpscQueue.fresh],
      by simp [SpscQueue.fresh]⟩,
    ⟨by simp [MpscQueue.fresh], by simp [MpscQueue.fresh],
      by simp [MpscQueue.fresh]⟩,
    SpscQueue.enqueue_preserves_Inv C q x ⟨hl, hh, ht⟩,
    (q.enqueue_refines x hh' ht' hqc).2.2,
    SpscQueue.dequeue_preserves_Inv C q d ⟨hl, hh, ht⟩,
    (q.dequeue_refines d hh' ht' hqc).2.2.2,
    MpscQueue.enqueue_keeps_Inv C p x ⟨hpl, hph, hpt⟩,
    MpscQueue.dequeue_keeps_Inv C p d ⟨hpl, hph, hpt⟩,
    by simp [SpscQueue.is_empty],
    by simp [MpscQueue.is_empty],
    ?_, ?_, ?_, ?_⟩
  · rw [(q.enqueue_refines x hh' ht' hqc).1, SpscRefQueue.enqueue_rejects_iff]
    simp only [SpscQueue.toRef]
    rw [hl]
  · rw [(q.dequeue_refines d hh' ht' hqc).1, SpscRefQueue.dequeue_rejects_iff]
    simp only [SpscQueue.toRef]
  · rw [MpscQueue.enqueue_false_iff, hpl]
  · rw [MpscQueue.dequeue_false_iff]

/-- C6 witness: the invariant theorem applied at capacity 1 on the fresh
queues. -/
theorem queue_state_invariants_witness :
    SpscQueue.Inv 1 ((SpscQueue.fresh 1 (0 : Nat)).enqueue 5).2 ∧
    MpscQueue.Inv 1 ((MpscQueue.fresh 1 (0 : Nat)).dequeue 6).2.2 :=
  ⟨(queue_state_invariants 1 (SpscQueue.fresh 1 0) (MpscQueue.fresh 1 0) 5 6
      ⟨by decide, by decide, by decide⟩
      ⟨by decide, by decide, by decide, by decide⟩
      ⟨by decide, by decide, by decide⟩).2.2.1,
   (queue_state_invariants 1 (SpscQueue.fresh 1 0) (MpscQueue.fresh 1 0) 5 6
      ⟨by decide, by decide, by decide⟩
      ⟨by decide, by decide, by decide, by decide⟩
      ⟨by decide, by decide, by decide⟩).2.2.2.2.2.2.2.1⟩
